import Mathlib

set_option maxHeartbeats 1000000

/-!
Shallow embedding of the flow-execution engine of `src/code.cpp`
(IoanaGugulea/OOP-Project): the `Flow` class with its per-step analytics,
the `Flow::run` decision/retry state machine, the `CalculusStep` fold,
the extension dispatch of `TextInputStep`/`CSVInputStep`, and the
`System` flow registry.

Modelling conventions:
* `Step*` pointer identities are natural numbers.
* `std::map<Step*, StepAnalytics>` is modelled as the list of keys present
  in the map plus a total function giving each key's entry; `operator[]`
  (which default-inserts a missing key) is `mapEnsure`.
* `size_t` loop-index arithmetic is `Nat` arithmetic modulo `2 ^ 64`
  (`SIZE_T_MOD`), so the `--i` at code.cpp line 124 wraps exactly as the
  C++ unsigned arithmetic does.
* The interactive session (the three `askUserTo...` prompts reading from
  `cin`, and the outcome of each `steps[i]->execute()` call) is a script:
  a list of `Event`s consumed in order.  `Flow::run` returns `none` when
  the script runs out (the run is still blocked on a prompt or on an
  execute outcome); a `some` result is a run that terminated.
* Step `execute()` bodies that touch the file system take the file system
  as an explicit oracle (`Nat`-free total function from paths to optional
  contents); throwing `FlowExecutionException` is the `.error` case of
  `Except`.
-/

namespace OOPProject

/-- Per-step analytics counters (`struct StepAnalytics`, code.cpp lines 43-48).
The C++ fields are `int`s that are only ever incremented starting from zero,
so they are modelled as naturals. -/
structure StepAnalytics where
  startedCount : Nat := 0
  completedCount : Nat := 0
  skippedCount : Nat := 0
  errorCount : Nat := 0
deriving DecidableEq, Repr

/-- modulus of `size_t` arithmetic (64-bit). -/
def SIZE_T_MOD : Nat := 2 ^ 64

/-- value of `std::string::npos` (`size_t(-1)`). -/
def NPOS : Nat := 2 ^ 64 - 1

/-- the `Flow` class (code.cpp lines 50-161): name, owned ordered step
sequence (pointer identities), creation timestamp, the per-step analytics
map (key list plus content function), and the flow-level counters
`flowStartedCount`, `flowCompletedCount`, `totalErrorsAcrossFlows`. -/
structure Flow where
  name : String
  steps : List Nat
  timestamp : Int
  analyticsKeys : List Nat
  analytics : Nat → StepAnalytics
  flowStartedCount : Nat
  flowCompletedCount : Nat
  totalErrorsAcrossFlows : Nat

/-- the `Flow(const string& n)` constructor (code.cpp line 65): empty step
sequence, empty analytics map, zero counters; `timestamp = time(0)` is the
clock value passed in by the environment. -/
def Flow.fresh (n : String) (now : Int) : Flow :=
  ⟨n, [], now, [], fun _ => {}, 0, 0, 0⟩

/-- `std::map::operator[]`: if the key is present the map is unchanged,
otherwise the key is inserted with a value-initialised (all-zero) entry.
Returns the new key list and the new content function. -/
def mapEnsure (keys : List Nat) (m : Nat → StepAnalytics) (k : Nat) :
    List Nat × (Nat → StepAnalytics) :=
  if k ∈ keys then (keys, m)
  else (keys ++ [k], fun j => if j = k then {} else m j)

/-- `Flow::addStep` (code.cpp lines 71-74): push the step pointer and
default-insert its analytics entry via `analytics[step]`. -/
def Flow.addStep (f : Flow) (step : Nat) : Flow :=
  let km := mapEnsure f.analyticsKeys f.analytics step
  { f with steps := f.steps ++ [step], analyticsKeys := km.1, analytics := km.2 }

/-- an increment such as `++analytics[steps[i]].startedCount`: ensure the
entry exists, then update it with `upd`. -/
def bumpStat (f : Flow) (k : Nat) (upd : StepAnalytics → StepAnalytics) : Flow :=
  let km := mapEnsure f.analyticsKeys f.analytics k
  { f with analyticsKeys := km.1,
           analytics := fun j => if j = k then upd (km.2 k) else km.2 j }

/-- program point of `Flow::run` (code.cpp lines 97-129) at index `i`:
`.decide` is the top of the `for` body (about to `++startedCount` and ask
run?, line 101), `.askSkip` is the `else if` (about to ask skip?, line
119), `.retry` is the top of the `while (!completed)` body (about to call
`execute()`, line 107), `.askComplete` is the point right after a normal
`execute()` return (about to ask completed?, line 108). -/
inductive RunPhase where
  | decide
  | askSkip
  | retry
  | askComplete
deriving DecidableEq

/-- one item consumed from the interactive session: `.ans b` is a yes/no
answer read by one of the `askUserTo...` prompts (`true` = `y`/`Y`), and
`.exec ok` is the outcome of one `steps[i]->execute()` call (`true` =
normal return, `false` = it throws `FlowExecutionException`). -/
inductive Event where
  | ans (b : Bool)
  | exec (ok : Bool)
deriving DecidableEq

/-- the loop of `Flow::run` (code.cpp lines 100-126), one prompt or execute
outcome consumed per call.  `.decide` at `i < steps.size()` does
`++analytics[steps[i]].startedCount` and reads the run? answer: yes goes to
`.retry`, no to `.askSkip`; when `i` reaches `steps.size()` the loop exits
and `++flowCompletedCount` (line 128).  `.askSkip` reads the skip? answer:
yes increments `skippedCount` and advances to `.decide` at `i + 1`; no
(invalid input, line 122) does the `--i` of line 124 followed by the `for`
increment `++i`, both in `size_t` arithmetic mod `2 ^ 64`, and re-enters
`.decide`.  `.retry` consumes one `execute()` outcome: a throw increments
`errorCount` and re-enters `.retry`; a normal return goes to
`.askComplete`, which reads the completed? answer: yes increments
`completedCount` and advances, no re-enters `.retry`.  `none` means the
script was exhausted before the run terminated. -/
def runLoop : RunPhase → Nat → Flow → List Event → Option (Flow × List Event)
  | .decide, i, f, script =>
      if i < f.steps.length then
        match script with
        | .ans b :: rest =>
            let f1 :=
              bumpStat f (f.steps.getD i 0) fun a => { a with startedCount := a.startedCount + 1 }
            if b then runLoop .retry i f1 rest
            else runLoop .askSkip i f1 rest
        | _ => none
      else
        some ({ f with flowCompletedCount := f.flowCompletedCount + 1 }, script)
  | .askSkip, i, f, script =>
      match script with
      | .ans b :: rest =>
          if b then
            runLoop .decide ((i + 1) % SIZE_T_MOD)
              (bumpStat f (f.steps.getD i 0) fun a => { a with skippedCount := a.skippedCount + 1 })
              rest
          else
            runLoop .decide (((i + (SIZE_T_MOD - 1)) % SIZE_T_MOD + 1) % SIZE_T_MOD) f rest
      | _ => none
  | .retry, i, f, script =>
      match script with
      | .exec ok :: rest =>
          if ok then runLoop .askComplete i f rest
          else
            runLoop .retry i
              (bumpStat f (f.steps.getD i 0) fun a => { a with errorCount := a.errorCount + 1 })
              rest
      | _ => none
  | .askComplete, i, f, script =>
      match script with
      | .ans b :: rest =>
          if b then
            runLoop .decide ((i + 1) % SIZE_T_MOD)
              (bumpStat f (f.steps.getD i 0) fun a => { a with completedCount := a.completedCount + 1 })
              rest
          else runLoop .retry i f rest
      | _ => none

/-- `Flow::run` (code.cpp lines 97-129): `++flowStartedCount` first, then the
step loop from index 0; the final `++flowCompletedCount` (line 128) happens
inside `runLoop` when the loop exits.  The function has no failure outcome
other than running out of script: every `FlowExecutionException` thrown by a
step is caught at lines 113-117. -/
def Flow.run (f : Flow) (script : List Event) : Option (Flow × List Event) :=
  runLoop .decide 0 { f with flowStartedCount := f.flowStartedCount + 1 } script

/-- `CalculusStep<T>` (code.cpp lines 328-371) instantiated, as in `main`,
at `T = int`: the `steps` bound, the input values, and the operation name. -/
structure CalculusStep where
  steps : Int
  inputValues : List Int
  operation : String

/-- one application of the operation selected by `CalculusStep::execute`'s
if-chain (code.cpp lines 346-366); C++ `int` division truncates toward
zero, which is `Int.tdiv`.  The final value is irrelevant for an unsupported
operation (that case aborts before applying anything). -/
def opApply (op : String) (acc x : Int) : Int :=
  if op = "+" then acc + x
  else if op = "-" then acc - x
  else if op = "*" then acc * x
  else if op = "/" then Int.tdiv acc x
  else if op = "min" then min acc x
  else if op = "max" then max acc x
  else acc

/-- the fold loop of `CalculusStep::execute` (code.cpp lines 345-367):
`fuel` is the number of iterations still allowed by the `i < steps` bound,
`l` the input values not yet consumed (the `i < inputValues.size()` bound).
`none` is the silent `return` on division by zero (line 357) or on an
unsupported operation (line 365). -/
def calcFold (op : String) : Nat → Int → List Int → Option Int
  | 0, acc, _ => some acc
  | _ + 1, acc, [] => some acc
  | fuel + 1, acc, x :: xs =>
      if op = "+" then calcFold op fuel (acc + x) xs
      else if op = "-" then calcFold op fuel (acc - x) xs
      else if op = "*" then calcFold op fuel (acc * x) xs
      else if op = "/" then
        if x ≠ 0 then calcFold op fuel (Int.tdiv acc x) xs else none
      else if op = "min" then calcFold op fuel (min acc x) xs
      else if op = "max" then calcFold op fuel (max acc x) xs
      else none

/-- `CalculusStep::execute` (code.cpp lines 338-371), as the value it
prints: `.ok (some r)` is a normal return that prints `r`; `.ok none` is
one of the silent early `return`s (invalid configuration at line 341,
division by zero, unsupported operation).  No path of the C++ function
throws, so no branch builds `.error`. -/
def CalculusStep.execute (c : CalculusStep) : Except String (Option Int) :=
  if c.steps ≤ 0 ∨ c.inputValues.length < 2 then .ok none
  else
    match c.inputValues with
    | [] => .ok none
    | v :: vs => .ok (calcFold c.operation (c.steps - 1).toNat v vs)

/-- `std::string::find_last_of(".")` on a string modelled as a char list:
the index of the last occurrence of `c`, or `NPOS` when `c` does not occur
(faithful for strings shorter than `NPOS`). -/
def find_last_of (s : List Char) (c : Char) : Nat :=
  match s with
  | [] => NPOS
  | a :: rest =>
      let r := find_last_of rest c
      if r ≠ NPOS then r + 1
      else if a = c then 0 else NPOS

/-- `std::string::substr(pos)` for `pos ≤ size()`: the suffix from `pos`. -/
def substrFrom (s : List Char) (pos : Nat) : List Char := s.drop pos

/-- the dispatch test `s.substr(s.find_last_of(".") + 1) == ext` used by
`TextInputStep::execute` (code.cpp line 200, ext = "txt") and
`CSVInputStep::execute` (line 226, ext = "csv"); the `+ 1` is `size_t`
arithmetic, so with no dot present `NPOS + 1` wraps to `0` and the whole
string is compared against the extension. -/
def extTest (s ext : List Char) : Bool :=
  substrFrom s ((find_last_of s '.' + 1) % SIZE_T_MOD) == ext

/-- observable outcome of a successful `TextInputStep::execute`. -/
inductive TextOut where
  | fromFile (content : List Char)
  | direct (raw : List Char)
deriving DecidableEq

/-- `TextInputStep::execute` (code.cpp lines 199-214) over a file-system
oracle `fs` mapping paths to optional contents: the "txt" branch reads the
file, throwing `FlowExecutionException("TextInputStep")` when it cannot be
opened; any other input is printed as direct text. -/
def TextInputStep.execute (fs : List Char → Option (List Char))
    (textInput : List Char) : Except String TextOut :=
  if extTest textInput ['t', 'x', 't'] then
    match fs textInput with
    | some content => .ok (.fromFile content)
    | none => .error "TextInputStep"
  else .ok (.direct textInput)

/-- failure modes of `CSVInputStep::execute`: both throw
`FlowExecutionException("CSVInputStep")`, distinguished here by the message
printed to `cerr` first ("Unable to open CSV file", line 235, versus
"Invalid file type for CSVInputStep", line 239). -/
inductive CsvError where
  | unableToOpen
  | invalidFileType
deriving DecidableEq

/-- `CSVInputStep::execute` (code.cpp lines 225-242) over a file-system
oracle giving the list of lines of each readable file. -/
def CSVInputStep.execute (fs : List Char → Option (List (List Char)))
    (csvFilePath : List Char) : Except CsvError (List (List Char)) :=
  if extTest csvFilePath ['c', 's', 'v'] then
    match fs csvFilePath with
    | some lns => .ok lns
    | none => .error .unableToOpen
  else .error .invalidFileType

/-- `System::createFlow` (code.cpp lines 407-409): push a new flow. -/
def createFlow (flows : List Flow) (flowName : String) (now : Int) : List Flow :=
  flows ++ [Flow.fresh flowName now]

/-- `System::deleteFlow` (code.cpp lines 411-424): `find_if` locates the
first flow with the given name; when found it is erased from the vector
(second component `none`); otherwise `FlowNotFoundException(flowName)` is
thrown and the vector is untouched (second component carries the name held
by the exception). -/
def deleteFlow (flows : List Flow) (flowName : String) : List Flow × Option String :=
  match flows.findIdx? (fun fl => fl.name == flowName) with
  | some idx => (flows.eraseIdx idx, none)
  | none => (flows, some flowName)

/-- names of the registered flows in order (`System::printFlows`,
code.cpp lines 427-432). -/
def listFlows (flows : List Flow) : List String :=
  flows.map Flow.name

/-- the average-errors-per-completed-flow metric printed by
`Flow::printAnalytics` (code.cpp lines 147-153): `totalErrorsAcrossFlows`
divided by `flowCompletedCount` (the C++ `double` quotient modelled as a
rational, exact for the integer values involved), or `none` for the
"N/A (No completed flows)" branch. -/
def avgErrorsPerFlow (f : Flow) : Option ℚ :=
  if 0 < f.flowCompletedCount then
    some ((f.totalErrorsAcrossFlows : ℚ) / (f.flowCompletedCount : ℚ))
  else none

/-- total of the per-step `errorCount`s over a flow's analytics entries:
the number of errors the spec says the metric's numerator accumulates. -/
def totalStepErrors (f : Flow) : Nat :=
  (f.analyticsKeys.map fun k => (f.analytics k).errorCount).sum

/-- representation invariant relating `steps` to the analytics map: every
step of the flow has an analytics entry.  `Flow::addStep` establishes it
(code.cpp line 73) and `Flow::run` only touches entries of steps. -/
def wfKeys (f : Flow) : Prop := ∀ x ∈ f.steps, x ∈ f.analyticsKeys

/-- representation invariant of the map model: the content function is
all-zero outside the key list (a `std::map` has no entries there). -/
def wfMap (f : Flow) : Prop := ∀ j, j ∉ f.analyticsKeys → f.analytics j = {}

/-- pointwise order on analytics counters: no counter decreased. -/
def StepAnalytics.le (a b : StepAnalytics) : Prop :=
  a.startedCount ≤ b.startedCount ∧ a.completedCount ≤ b.completedCount ∧
    a.skippedCount ≤ b.skippedCount ∧ a.errorCount ≤ b.errorCount

/-- first step index not yet reached by the loop when standing at program
point `m` with loop index `i`: at `.decide` the step `i` itself has not been
counted yet; at the other points `steps[i]`'s `startedCount` increment has
already happened. -/
def visitIdx (m : RunPhase) (i : Nat) : Nat :=
  match m with
  | .decide => i
  | .askSkip => i + 1
  | .retry => i + 1
  | .askComplete => i + 1

/-- session script that answers run? = no, skip? = yes for `n` consecutive
steps. -/
def skipEvents : Nat → List Event
  | 0 => []
  | n + 1 => .ans false :: .ans true :: skipEvents n

/-- what one terminated passage through the rest of `Flow::run`'s loop does
to the flow object: every field except the analytics contents is unchanged
(`flowCompletedCount` gains its final increment), and no analytics counter
decreases. -/
def framePost (f f' : Flow) : Prop :=
  f'.name = f.name ∧ f'.timestamp = f.timestamp ∧ f'.steps = f.steps ∧
    f'.analyticsKeys = f.analyticsKeys ∧ f'.flowStartedCount = f.flowStartedCount ∧
    f'.flowCompletedCount = f.flowCompletedCount + 1 ∧
    f'.totalErrorsAcrossFlows = f.totalErrorsAcrossFlows ∧
    ∀ j, (f.analytics j).le (f'.analytics j)

/-- one-step test flow used by the concrete witnesses. -/
def wFlow : Flow := Flow.addStep (Flow.fresh "w" 0) 5

/-- session script for the first run of the C4 scenario: run the step,
fail three times, succeed, confirm completion (3 errors). -/
def c4Script1 : List Event :=
  [.ans true, .exec false, .exec false, .exec false, .exec true, .ans true]

/-- session script for the second run of the C4 scenario: run the step,
fail once, succeed, confirm completion (1 error). -/
def c4Script2 : List Event :=
  [.ans true, .exec false, .exec true, .ans true]

/-- two consecutive completed runs of the same one-step flow, accumulating
3 errors and then 1 error. -/
def c4TwoRuns : Option (Flow × List Event) :=
  (Flow.run wFlow c4Script1).bind fun p => Flow.run p.1 c4Script2

/-- the `CalculusStep<int>(3, {2, 3, 4}, "+")` built in `main`
(code.cpp line 482). -/
def c6Step : CalculusStep := ⟨3, [2, 3, 4], "+"⟩

/-- a concrete two-flow registry with distinct names, for the registry
witness. -/
def regFlows : List Flow := [Flow.fresh "a" 0, Flow.fresh "b" 0]

/-! Small facts about `bumpStat` and the loop-index arithmetic. -/

theorem bumpStat_name (f : Flow) (k : Nat) (u : StepAnalytics → StepAnalytics) :
    (bumpStat f k u).name = f.name := rfl

theorem bumpStat_steps (f : Flow) (k : Nat) (u : StepAnalytics → StepAnalytics) :
    (bumpStat f k u).steps = f.steps := rfl

theorem bumpStat_timestamp (f : Flow) (k : Nat) (u : StepAnalytics → StepAnalytics) :
    (bumpStat f k u).timestamp = f.timestamp := rfl

theorem bumpStat_flowStarted (f : Flow) (k : Nat) (u : StepAnalytics → StepAnalytics) :
    (bumpStat f k u).flowStartedCount = f.flowStartedCount := rfl

theorem bumpStat_flowCompleted (f : Flow) (k : Nat) (u : StepAnalytics → StepAnalytics) :
    (bumpStat f k u).flowCompletedCount = f.flowCompletedCount := rfl

theorem bumpStat_totalErrors (f : Flow) (k : Nat) (u : StepAnalytics → StepAnalytics) :
    (bumpStat f k u).totalErrorsAcrossFlows = f.totalErrorsAcrossFlows := rfl

theorem bumpStat_keys_of_mem (f : Flow) (k : Nat) (u : StepAnalytics → StepAnalytics)
    (hk : k ∈ f.analyticsKeys) :
    (bumpStat f k u).analyticsKeys = f.analyticsKeys := by
  simp [bumpStat, mapEnsure, hk]

theorem bumpStat_analytics_ne (f : Flow) (k : Nat) (u : StepAnalytics → StepAnalytics)
    (j : Nat) (hj : j ≠ k) :
    (bumpStat f k u).analytics j = f.analytics j := by
  by_cases hk : k ∈ f.analyticsKeys <;> simp [bumpStat, mapEnsure, hk, hj]

theorem bumpStat_analytics_self_of_mem (f : Flow) (k : Nat)
    (u : StepAnalytics → StepAnalytics) (hk : k ∈ f.analyticsKeys) :
    (bumpStat f k u).analytics k = u (f.analytics k) := by
  simp [bumpStat, mapEnsure, hk]

theorem bumpStat_wfKeys (f : Flow) (k : Nat) (u : StepAnalytics → StepAnalytics)
    (hk : k ∈ f.analyticsKeys) (hf : wfKeys f) : wfKeys (bumpStat f k u) := by
  intro x hx
  rw [bumpStat_keys_of_mem f k u hk]
  exact hf x (by simpa [bumpStat_steps] using hx)

theorem sizeTMod_eq : SIZE_T_MOD = 18446744073709551616 := by norm_num [SIZE_T_MOD]

theorem wrapIdx_eq (i : Nat) (hi : i < SIZE_T_MOD) :
    ((i + (SIZE_T_MOD - 1)) % SIZE_T_MOD + 1) % SIZE_T_MOD = i := by
  rw [sizeTMod_eq] at *
  omega

theorem succIdx_eq (i n : Nat) (hi : i < n) (hn : n < SIZE_T_MOD) :
    (i + 1) % SIZE_T_MOD = i + 1 := by
  rw [sizeTMod_eq] at *
  omega

/-! One-step unfolding equations for `runLoop`, one per control path of
code.cpp lines 100-126. -/

theorem runLoop_decide_run (i : Nat) (f : Flow) (rest : List Event)
    (hi : i < f.steps.length) :
    runLoop .decide i f (.ans true :: rest) =
      runLoop .retry i
        (bumpStat f (f.steps.getD i 0) fun a => { a with startedCount := a.startedCount + 1 })
        rest := by
  conv_lhs => rw [runLoop]
  simp [hi]

theorem runLoop_decide_noRun (i : Nat) (f : Flow) (rest : List Event)
    (hi : i < f.steps.length) :
    runLoop .decide i f (.ans false :: rest) =
      runLoop .askSkip i
        (bumpStat f (f.steps.getD i 0) fun a => { a with startedCount := a.startedCount + 1 })
        rest := by
  conv_lhs => rw [runLoop]
  simp [hi]

theorem runLoop_exit (i : Nat) (f : Flow) (script : List Event) (hi : ¬ i < f.steps.length) :
    runLoop .decide i f script =
      some ({ f with flowCompletedCount := f.flowCompletedCount + 1 }, script) := by
  cases script with
  | nil => rw [runLoop] <;> simp [hi]
  | cons e t =>
      cases e with
      | ans b =>
          conv_lhs => rw [runLoop]
          simp [hi]
      | exec ok => rw [runLoop] <;> simp [hi]

theorem runLoop_skip (i : Nat) (f : Flow) (rest : List Event) :
    runLoop .askSkip i f (.ans true :: rest) =
      runLoop .decide ((i + 1) % SIZE_T_MOD)
        (bumpStat f (f.steps.getD i 0) fun a => { a with skippedCount := a.skippedCount + 1 })
        rest := by
  conv_lhs => rw [runLoop]
  simp

theorem runLoop_invalid (i : Nat) (f : Flow) (rest : List Event) :
    runLoop .askSkip i f (.ans false :: rest) =
      runLoop .decide (((i + (SIZE_T_MOD - 1)) % SIZE_T_MOD + 1) % SIZE_T_MOD) f rest := by
  conv_lhs => rw [runLoop]
  simp

theorem runLoop_execOk (i : Nat) (f : Flow) (rest : List Event) :
    runLoop .retry i f (.exec true :: rest) = runLoop .askComplete i f rest := by
  conv_lhs => rw [runLoop]
  simp

theorem runLoop_execFail (i : Nat) (f : Flow) (rest : List Event) :
    runLoop .retry i f (.exec false :: rest) =
      runLoop .retry i
        (bumpStat f (f.steps.getD i 0) fun a => { a with errorCount := a.errorCount + 1 })
        rest := by
  conv_lhs => rw [runLoop]
  simp

theorem runLoop_complete (i : Nat) (f : Flow) (rest : List Event) :
    runLoop .askComplete i f (.ans true :: rest) =
      runLoop .decide ((i + 1) % SIZE_T_MOD)
        (bumpStat f (f.steps.getD i 0) fun a => { a with completedCount := a.completedCount + 1 })
        rest := by
  conv_lhs => rw [runLoop]
  simp

theorem runLoop_notComplete (i : Nat) (f : Flow) (rest : List Event) :
    runLoop .askComplete i f (.ans false :: rest) = runLoop .retry i f rest := by
  conv_lhs => rw [runLoop]
  simp

theorem runLoop_decide_stuck (i : Nat) (f : Flow) (script : List Event)
    (hi : i < f.steps.length) (hs : ∀ (b : Bool) (rest : List Event), script = .ans b :: rest → False) :
    runLoop .decide i f script = none := by
  cases script with
  | nil => rw [runLoop] <;> simp [hi]
  | cons e t =>
      cases e with
      | ans b => exact absurd rfl (hs b t)
      | exec ok => rw [runLoop] <;> simp [hi]

theorem runLoop_askSkip_stuck (i : Nat) (f : Flow) (script : List Event)
    (hs : ∀ (b : Bool) (rest : List Event), script = .ans b :: rest → False) :
    runLoop .askSkip i f script = none := by
  cases script with
  | nil => rw [runLoop] <;> simp
  | cons e t =>
      cases e with
      | ans b => exact absurd rfl (hs b t)
      | exec ok => rw [runLoop] <;> simp

theorem runLoop_retry_stuck (i : Nat) (f : Flow) (script : List Event)
    (hs : ∀ (ok : Bool) (rest : List Event), script = .exec ok :: rest → False) :
    runLoop .retry i f script = none := by
  cases script with
  | nil => rw [runLoop] <;> simp
  | cons e t =>
      cases e with
      | ans b => rw [runLoop] <;> simp
      | exec ok => exact absurd rfl (hs ok t)

theorem runLoop_askComplete_stuck (i : Nat) (f : Flow) (script : List Event)
    (hs : ∀ (b : Bool) (rest : List Event), script = .ans b :: rest → False) :
    runLoop .askComplete i f script = none := by
  cases script with
  | nil => rw [runLoop] <;> simp
  | cons e t =>
      cases e with
      | ans b => exact absurd rfl (hs b t)
      | exec ok => rw [runLoop] <;> simp

/-! Order facts on the analytics counters. -/

theorem StepAnalytics.le_rfl (a : StepAnalytics) : a.le a :=
  ⟨Nat.le_refl _, Nat.le_refl _, Nat.le_refl _, Nat.le_refl _⟩

theorem StepAnalytics.le_trans {a b c : StepAnalytics} (h1 : a.le b) (h2 : b.le c) : a.le c :=
  ⟨Nat.le_trans h1.1 h2.1, Nat.le_trans h1.2.1 h2.2.1, Nat.le_trans h1.2.2.1 h2.2.2.1,
    Nat.le_trans h1.2.2.2 h2.2.2.2⟩

theorem getD_mem_of_lt (l : List Nat) (i : Nat) (h : i < l.length) : l.getD i 0 ∈ l := by
  rw [List.getD_eq_getElem l 0 h]
  exact List.getElem_mem h

theorem bumpStat_le (f : Flow) (k : Nat) (u : StepAnalytics → StepAnalytics)
    (hk : k ∈ f.analyticsKeys) (hu : ∀ a : StepAnalytics, a.le (u a)) (j : Nat) :
    (f.analytics j).le ((bumpStat f k u).analytics j) := by
  by_cases hj : j = k
  · subst hj
    rw [bumpStat_analytics_self_of_mem f j u hk]
    exact hu _
  · rw [bumpStat_analytics_ne f k u j hj]
    exact StepAnalytics.le_rfl _

theorem framePost_bump (f f' : Flow) (k : Nat) (u : StepAnalytics → StepAnalytics)
    (hk : k ∈ f.analyticsKeys) (hu : ∀ a : StepAnalytics, a.le (u a))
    (h : framePost (bumpStat f k u) f') : framePost f f' := by
  obtain ⟨h1, h2, h3, h4, h5, h6, h7, h8⟩ := h
  refine ⟨?_, ?_, ?_, ?_, ?_, ?_, ?_, ?_⟩
  · rw [h1]; rfl
  · rw [h2]; rfl
  · rw [h3]; rfl
  · rw [h4]; exact bumpStat_keys_of_mem f k u hk
  · rw [h5]; rfl
  · rw [h6]; rfl
  · rw [h7]; rfl
  · intro j
    exact StepAnalytics.le_trans (bumpStat_le f k u hk hu j) (h8 j)

theorem le_bumpStarted (a : StepAnalytics) :
    a.le { a with startedCount := a.startedCount + 1 } :=
  ⟨Nat.le_succ _, Nat.le_refl _, Nat.le_refl _, Nat.le_refl _⟩

theorem le_bumpSkipped (a : StepAnalytics) :
    a.le { a with skippedCount := a.skippedCount + 1 } :=
  ⟨Nat.le_refl _, Nat.le_refl _, Nat.le_succ _, Nat.le_refl _⟩

theorem le_bumpCompleted (a : StepAnalytics) :
    a.le { a with completedCount := a.completedCount + 1 } :=
  ⟨Nat.le_refl _, Nat.le_succ _, Nat.le_refl _, Nat.le_refl _⟩

theorem le_bumpError (a : StepAnalytics) :
    a.le { a with errorCount := a.errorCount + 1 } :=
  ⟨Nat.le_refl _, Nat.le_refl _, Nat.le_refl _, Nat.le_succ _⟩

/-- every terminated continuation of `Flow::run`'s loop leaves the name,
timestamp, step sequence, analytics key set, `flowStartedCount` and
`totalErrorsAcrossFlows` unchanged, performs the single final
`++flowCompletedCount`, and never decreases an analytics counter. -/
theorem runLoop_framePost :
    ∀ (m : RunPhase) (i : Nat) (f : Flow) (script : List Event) (f' : Flow) (r : List Event),
      runLoop m i f script = some (f', r) →
      (m ≠ RunPhase.decide → i < f.steps.length) →
      wfKeys f → framePost f f' := by
  intro m i f script
  induction m, i, f, script using runLoop.induct with
  | case1 i f hi rest f1 ih =>
      intro f' r h _ hk
      rw [runLoop_decide_run i f rest hi] at h
      have hmem := hk _ (getD_mem_of_lt f.steps i hi)
      exact framePost_bump f f' _ _ hmem le_bumpStarted
        (ih f' r h (fun _ => hi) (bumpStat_wfKeys f _ _ hmem hk))
  | case2 i f hi b rest f1 hb ih =>
      intro f' r h _ hk
      obtain rfl : b = false := by simpa using hb
      rw [runLoop_decide_noRun i f rest hi] at h
      have hmem := hk _ (getD_mem_of_lt f.steps i hi)
      exact framePost_bump f f' _ _ hmem le_bumpStarted
        (ih f' r h (fun _ => hi) (bumpStat_wfKeys f _ _ hmem hk))
  | case3 i f script hi hs =>
      intro f' r h _ _
      rw [runLoop_decide_stuck i f script hi hs] at h
      exact Option.noConfusion h
  | case4 i f script hi =>
      intro f' r h _ _
      rw [runLoop_exit i f script hi] at h
      simp only [Option.some.injEq, Prod.mk.injEq] at h
      obtain ⟨h1, _⟩ := h
      subst h1
      exact ⟨rfl, rfl, rfl, rfl, rfl, rfl, rfl, fun j => StepAnalytics.le_rfl _⟩
  | case5 i f rest ih =>
      intro f' r h hph hk
      have hi : i < f.steps.length := hph (by decide)
      rw [runLoop_skip i f rest] at h
      have hmem := hk _ (getD_mem_of_lt f.steps i hi)
      exact framePost_bump f f' _ _ hmem le_bumpSkipped
        (ih f' r h (fun hc => absurd rfl hc) (bumpStat_wfKeys f _ _ hmem hk))
  | case6 i f b rest hb ih =>
      intro f' r h _ hk
      obtain rfl : b = false := by simpa using hb
      rw [runLoop_invalid i f rest] at h
      exact ih f' r h (fun hc => absurd rfl hc) hk
  | case7 i f script hs =>
      intro f' r h _ _
      rw [runLoop_askSkip_stuck i f script hs] at h
      exact Option.noConfusion h
  | case8 i f rest ih =>
      intro f' r h hph hk
      rw [runLoop_execOk i f rest] at h
      exact ih f' r h (fun _ => hph (by decide)) hk
  | case9 i f ok rest hok ih =>
      intro f' r h hph hk
      obtain rfl : ok = false := by simpa using hok
      have hi : i < f.steps.length := hph (by decide)
      rw [runLoop_execFail i f rest] at h
      have hmem := hk _ (getD_mem_of_lt f.steps i hi)
      exact framePost_bump f f' _ _ hmem le_bumpError
        (ih f' r h (fun _ => hi) (bumpStat_wfKeys f _ _ hmem hk))
  | case10 i f script hs =>
      intro f' r h _ _
      rw [runLoop_retry_stuck i f script hs] at h
      exact Option.noConfusion h
  | case11 i f rest ih =>
      intro f' r h hph hk
      have hi : i < f.steps.length := hph (by decide)
      rw [runLoop_complete i f rest] at h
      have hmem := hk _ (getD_mem_of_lt f.steps i hi)
      exact framePost_bump f f' _ _ hmem le_bumpCompleted
        (ih f' r h (fun hc => absurd rfl hc) (bumpStat_wfKeys f _ _ hmem hk))
  | case12 i f b rest hb ih =>
      intro f' r h hph hk
      obtain rfl : b = false := by simpa using hb
      rw [runLoop_notComplete i f rest] at h
      exact ih f' r h (fun _ => hph (by decide)) hk
  | case13 i f script hs =>
      intro f' r h _ _
      rw [runLoop_askComplete_stuck i f script hs] at h
      exact Option.noConfusion h

/-- the non-analytics fields are untouched by any terminated continuation
of the loop, with no well-formedness assumption at all: `bumpStat` can only
ever change the analytics map. -/
theorem runLoop_basicPost :
    ∀ (m : RunPhase) (i : Nat) (f : Flow) (script : List Event) (f' : Flow) (r : List Event),
      runLoop m i f script = some (f', r) →
      f'.name = f.name ∧ f'.timestamp = f.timestamp ∧ f'.steps = f.steps ∧
        f'.flowStartedCount = f.flowStartedCount ∧
        f'.flowCompletedCount = f.flowCompletedCount + 1 ∧
        f'.totalErrorsAcrossFlows = f.totalErrorsAcrossFlows := by
  intro m i f script
  induction m, i, f, script using runLoop.induct with
  | case1 i f hi rest f1 ih =>
      intro f' r h
      rw [runLoop_decide_run i f rest hi] at h
      exact ih f' r h
  | case2 i f hi b rest f1 hb ih =>
      intro f' r h
      obtain rfl : b = false := by simpa using hb
      rw [runLoop_decide_noRun i f rest hi] at h
      exact ih f' r h
  | case3 i f script hi hs =>
      intro f' r h
      rw [runLoop_decide_stuck i f script hi hs] at h
      exact Option.noConfusion h
  | case4 i f script hi =>
      intro f' r h
      rw [runLoop_exit i f script hi] at h
      simp only [Option.some.injEq, Prod.mk.injEq] at h
      obtain ⟨h1, _⟩ := h
      subst h1
      exact ⟨rfl, rfl, rfl, rfl, rfl, rfl⟩
  | case5 i f rest ih =>
      intro f' r h
      rw [runLoop_skip i f rest] at h
      exact ih f' r h
  | case6 i f b rest hb ih =>
      intro f' r h
      obtain rfl : b = false := by simpa using hb
      rw [runLoop_invalid i f rest] at h
      exact ih f' r h
  | case7 i f script hs =>
      intro f' r h
      rw [runLoop_askSkip_stuck i f script hs] at h
      exact Option.noConfusion h
  | case8 i f rest ih =>
      intro f' r h
      rw [runLoop_execOk i f rest] at h
      exact ih f' r h
  | case9 i f ok rest hok ih =>
      intro f' r h
      obtain rfl : ok = false := by simpa using hok
      rw [runLoop_execFail i f rest] at h
      exact ih f' r h
  | case10 i f script hs =>
      intro f' r h
      rw [runLoop_retry_stuck i f script hs] at h
      exact Option.noConfusion h
  | case11 i f rest ih =>
      intro f' r h
      rw [runLoop_complete i f rest] at h
      exact ih f' r h
  | case12 i f b rest hb ih =>
      intro f' r h
      obtain rfl : b = false := by simpa using hb
      rw [runLoop_notComplete i f rest] at h
      exact ih f' r h
  | case13 i f script hs =>
      intro f' r h
      rw [runLoop_askComplete_stuck i f script hs] at h
      exact Option.noConfusion h

/-- C1: for every flow and every prompter script under which `Flow::run`
terminates, the run returns normally — in the model the only outcomes of
`Flow.run` are a normal return (`some`) or an exhausted script (`none`);
there is no error outcome, because the `catch` at code.cpp lines 113-117
absorbs every `FlowExecutionException` no matter how many `execute()`
calls fail — and it increments `flowStartedCount` by exactly 1 (at the
very start, line 98) and `flowCompletedCount` by exactly 1 (after every
step has been visited and resolved, line 128). -/
theorem run_flow_counters (f : Flow) (script : List Event) (f' : Flow) (r : List Event)
    (h : Flow.run f script = some (f', r)) :
    f'.flowStartedCount = f.flowStartedCount + 1 ∧
      f'.flowCompletedCount = f.flowCompletedCount + 1 := by
  have hb := runLoop_basicPost .decide 0 _ script f' r h
  exact ⟨hb.2.2.2.1, hb.2.2.2.2.1⟩

/-- C1 witness: a concrete one-step flow and script (skip the step) on
which the run terminates and the flow counters both gain exactly 1. -/
theorem run_flow_counters_witness :
    ∃ p : Flow × List Event,
      Flow.run wFlow [.ans false, .ans true] = some p ∧
        p.1.flowStartedCount = wFlow.flowStartedCount + 1 ∧
        p.1.flowCompletedCount = wFlow.flowCompletedCount + 1 :=
  ⟨_, rfl, run_flow_counters wFlow [.ans false, .ans true] _ _ rfl⟩

/-- the invariant `completedCount ≤ startedCount` of every analytics entry
is preserved by any terminated continuation of the loop: at the program
points inside the retry loop the current step's entry is strictly below
(its `startedCount` was already incremented on this visit), which is what
lets the `++completedCount` at line 110 restore the invariant. -/
theorem runLoop_cle :
    ∀ (m : RunPhase) (i : Nat) (f : Flow) (script : List Event) (f' : Flow) (r : List Event),
      runLoop m i f script = some (f', r) →
      (m ≠ RunPhase.decide → i < f.steps.length ∧
        (f.analytics (f.steps.getD i 0)).completedCount <
          (f.analytics (f.steps.getD i 0)).startedCount) →
      wfKeys f →
      (∀ j, (f.analytics j).completedCount ≤ (f.analytics j).startedCount) →
      ∀ j, (f'.analytics j).completedCount ≤ (f'.analytics j).startedCount := by
  intro m i f script
  induction m, i, f, script using runLoop.induct with
  | case1 i f hi rest f1 ih =>
      intro f' r h _ hk hc
      unfold_let f1 at ih
      rw [runLoop_decide_run i f rest hi] at h
      have hmem := hk _ (getD_mem_of_lt f.steps i hi)
      refine ih f' r h (fun _ => ⟨hi, ?_⟩) (bumpStat_wfKeys f _ _ hmem hk) ?_
      · rw [bumpStat_steps, bumpStat_analytics_self_of_mem f _ _ hmem]
        exact Nat.lt_succ_of_le (hc _)
      · intro j
        by_cases hj : j = f.steps.getD i 0
        · subst hj
          rw [bumpStat_analytics_self_of_mem f _ _ hmem]
          exact Nat.le_succ_of_le (hc _)
        · rw [bumpStat_analytics_ne f _ _ j hj]
          exact hc j
  | case2 i f hi b rest f1 hb ih =>
      intro f' r h _ hk hc
      unfold_let f1 at ih
      obtain rfl : b = false := by simpa using hb
      rw [runLoop_decide_noRun i f rest hi] at h
      have hmem := hk _ (getD_mem_of_lt f.steps i hi)
      refine ih f' r h (fun _ => ⟨hi, ?_⟩) (bumpStat_wfKeys f _ _ hmem hk) ?_
      · rw [bumpStat_steps, bumpStat_analytics_self_of_mem f _ _ hmem]
        exact Nat.lt_succ_of_le (hc _)
      · intro j
        by_cases hj : j = f.steps.getD i 0
        · subst hj
          rw [bumpStat_analytics_self_of_mem f _ _ hmem]
          exact Nat.le_succ_of_le (hc _)
        · rw [bumpStat_analytics_ne f _ _ j hj]
          exact hc j
  | case3 i f script hi hs =>
      intro f' r h _ _ _
      rw [runLoop_decide_stuck i f script hi hs] at h
      exact Option.noConfusion h
  | case4 i f script hi =>
      intro f' r h _ _ hc
      rw [runLoop_exit i f script hi] at h
      simp only [Option.some.injEq, Prod.mk.injEq] at h
      obtain ⟨h1, _⟩ := h
      subst h1
      exact hc
  | case5 i f rest ih =>
      intro f' r h hph hk hc
      obtain ⟨hi, _⟩ := hph (by decide)
      rw [runLoop_skip i f rest] at h
      have hmem := hk _ (getD_mem_of_lt f.steps i hi)
      refine ih f' r h (fun hcontr => absurd rfl hcontr) (bumpStat_wfKeys f _ _ hmem hk) ?_
      intro j
      by_cases hj : j = f.steps.getD i 0
      · subst hj
        rw [bumpStat_analytics_self_of_mem f _ _ hmem]
        exact hc _
      · rw [bumpStat_analytics_ne f _ _ j hj]
        exact hc j
  | case6 i f b rest hb ih =>
      intro f' r h _ hk hc
      obtain rfl : b = false := by simpa using hb
      rw [runLoop_invalid i f rest] at h
      exact ih f' r h (fun hcontr => absurd rfl hcontr) hk hc
  | case7 i f script hs =>
      intro f' r h _ _ _
      rw [runLoop_askSkip_stuck i f script hs] at h
      exact Option.noConfusion h
  | case8 i f rest ih =>
      intro f' r h hph hk hc
      rw [runLoop_execOk i f rest] at h
      exact ih f' r h (fun _ => hph (by decide)) hk hc
  | case9 i f ok rest hok ih =>
      intro f' r h hph hk hc
      obtain rfl : ok = false := by simpa using hok
      obtain ⟨hi, hlt⟩ := hph (by decide)
      rw [runLoop_execFail i f rest] at h
      have hmem := hk _ (getD_mem_of_lt f.steps i hi)
      refine ih f' r h (fun _ => ⟨hi, ?_⟩) (bumpStat_wfKeys f _ _ hmem hk) ?_
      · rw [bumpStat_steps, bumpStat_analytics_self_of_mem f _ _ hmem]
        exact hlt
      · intro j
        by_cases hj : j = f.steps.getD i 0
        · subst hj
          rw [bumpStat_analytics_self_of_mem f _ _ hmem]
          exact hc _
        · rw [bumpStat_analytics_ne f _ _ j hj]
          exact hc j
  | case10 i f script hs =>
      intro f' r h _ _ _
      rw [runLoop_retry_stuck i f script hs] at h
      exact Option.noConfusion h
  | case11 i f rest ih =>
      intro f' r h hph hk hc
      obtain ⟨hi, hlt⟩ := hph (by decide)
      rw [runLoop_complete i f rest] at h
      have hmem := hk _ (getD_mem_of_lt f.steps i hi)
      refine ih f' r h (fun hcontr => absurd rfl hcontr) (bumpStat_wfKeys f _ _ hmem hk) ?_
      intro j
      by_cases hj : j = f.steps.getD i 0
      · subst hj
        rw [bumpStat_analytics_self_of_mem f _ _ hmem]
        exact hlt
      · rw [bumpStat_analytics_ne f _ _ j hj]
        exact hc j
  | case12 i f b rest hb ih =>
      intro f' r h hph hk hc
      obtain rfl : b = false := by simpa using hb
      rw [runLoop_notComplete i f rest] at h
      exact ih f' r h (fun _ => hph (by decide)) hk hc
  | case13 i f script hs =>
      intro f' r h _ _ _
      rw [runLoop_askComplete_stuck i f script hs] at h
      exact Option.noConfusion h

/-- every step whose index has not yet been passed gets its `startedCount`
incremented at least once before the loop can terminate: step `i` is
reached, line 101 increments its entry, and the counter never decreases
afterwards. -/
theorem runLoop_visits :
    ∀ (m : RunPhase) (i : Nat) (f : Flow) (script : List Event) (f' : Flow) (r : List Event),
      runLoop m i f script = some (f', r) →
      (m ≠ RunPhase.decide → i < f.steps.length) →
      wfKeys f → f.steps.length < SIZE_T_MOD →
      ∀ x ∈ f.steps.drop (visitIdx m i),
        (f.analytics x).startedCount + 1 ≤ (f'.analytics x).startedCount := by
  intro m i f script
  induction m, i, f, script using runLoop.induct with
  | case1 i f hi rest f1 ih =>
      intro f' r h _ hk hlen x hx
      unfold_let f1 at ih
      rw [runLoop_decide_run i f rest hi] at h
      have hmem := hk _ (getD_mem_of_lt f.steps i hi)
      have hdrop : f.steps.drop i = f.steps.getD i 0 :: f.steps.drop (i + 1) := by
        rw [List.getD_eq_getElem f.steps 0 hi]
        exact List.drop_eq_getElem_cons hi
      rw [visitIdx] at hx
      rw [hdrop] at hx
      rcases List.mem_cons.mp hx with hx | hx
      · subst hx
        have hmono :=
          (runLoop_framePost .retry i _ rest f' r h (fun _ => hi)
            (bumpStat_wfKeys f _ _ hmem hk)).2.2.2.2.2.2.2 (f.steps.getD i 0)
        have hself := bumpStat_analytics_self_of_mem f (f.steps.getD i 0)
          (fun a => { a with startedCount := a.startedCount + 1 }) hmem
        calc (f.analytics (f.steps.getD i 0)).startedCount + 1
            = ((bumpStat f (f.steps.getD i 0)
                (fun a => { a with startedCount := a.startedCount + 1 })).analytics
                  (f.steps.getD i 0)).startedCount := by rw [hself]
          _ ≤ _ := hmono.1
      · have hx' : x ∈ f.steps.drop (visitIdx .retry i) := hx
        have := ih f' r h (fun _ => hi) (bumpStat_wfKeys f _ _ hmem hk) hlen x hx'
        refine Nat.le_trans ?_ this
        by_cases hj : x = f.steps.getD i 0
        · subst hj
          rw [bumpStat_analytics_self_of_mem f _ _ hmem]
          exact Nat.le_succ_of_le (Nat.le_refl _)
        · rw [bumpStat_analytics_ne f _ _ x hj]
  | case2 i f hi b rest f1 hb ih =>
      intro f' r h _ hk hlen x hx
      unfold_let f1 at ih
      obtain rfl : b = false := by simpa using hb
      rw [runLoop_decide_noRun i f rest hi] at h
      have hmem := hk _ (getD_mem_of_lt f.steps i hi)
      have hdrop : f.steps.drop i = f.steps.getD i 0 :: f.steps.drop (i + 1) := by
        rw [List.getD_eq_getElem f.steps 0 hi]
        exact List.drop_eq_getElem_cons hi
      rw [visitIdx] at hx
      rw [hdrop] at hx
      rcases List.mem_cons.mp hx with hx | hx
      · subst hx
        have hmono :=
          (runLoop_framePost .askSkip i _ rest f' r h (fun _ => hi)
            (bumpStat_wfKeys f _ _ hmem hk)).2.2.2.2.2.2.2 (f.steps.getD i 0)
        have hself := bumpStat_analytics_self_of_mem f (f.steps.getD i 0)
          (fun a => { a with startedCount := a.startedCount + 1 }) hmem
        calc (f.analytics (f.steps.getD i 0)).startedCount + 1
            = ((bumpStat f (f.steps.getD i 0)
                (fun a => { a with startedCount := a.startedCount + 1 })).analytics
                  (f.steps.getD i 0)).startedCount := by rw [hself]
          _ ≤ _ := hmono.1
      · have hx' : x ∈ f.steps.drop (visitIdx .askSkip i) := hx
        have := ih f' r h (fun _ => hi) (bumpStat_wfKeys f _ _ hmem hk) hlen x hx'
        refine Nat.le_trans ?_ this
        by_cases hj : x = f.steps.getD i 0
        · subst hj
          rw [bumpStat_analytics_self_of_mem f _ _ hmem]
          exact Nat.le_succ_of_le (Nat.le_refl _)
        · rw [bumpStat_analytics_ne f _ _ x hj]
  | case3 i f script hi hs =>
      intro f' r h _ _ _ x hx
      rw [runLoop_decide_stuck i f script hi hs] at h
      exact Option.noConfusion h
  | case4 i f script hi =>
      intro f' r h _ _ _ x hx
      rw [visitIdx, List.drop_eq_nil_of_le (Nat.le_of_not_lt hi)] at hx
      exact absurd hx (List.not_mem_nil x)
  | case5 i f rest ih =>
      intro f' r h hph hk hlen x hx
      have hi : i < f.steps.length := hph (by decide)
      rw [runLoop_skip i f rest] at h
      have hmem := hk _ (getD_mem_of_lt f.steps i hi)
      have hidx : (i + 1) % SIZE_T_MOD = i + 1 := succIdx_eq i f.steps.length hi hlen
      rw [hidx] at h ih
      have hx' : x ∈ f.steps.drop (visitIdx .decide (i + 1)) := by
        rw [visitIdx]
        exact hx
      have := ih f' r h (fun hcontr => absurd rfl hcontr)
        (bumpStat_wfKeys f _ _ hmem hk) hlen x hx'
      refine Nat.le_trans ?_ this
      by_cases hj : x = f.steps.getD i 0
      · subst hj
        rw [bumpStat_analytics_self_of_mem f _ _ hmem]
      · rw [bumpStat_analytics_ne f _ _ x hj]
  | case6 i f b rest hb ih =>
      intro f' r h hph hk hlen x hx
      obtain rfl : b = false := by simpa using hb
      have hi : i < f.steps.length := hph (by decide)
      rw [runLoop_invalid i f rest] at h
      have hwrap : ((i + (SIZE_T_MOD - 1)) % SIZE_T_MOD + 1) % SIZE_T_MOD = i :=
        wrapIdx_eq i (Nat.lt_trans hi hlen)
      rw [hwrap] at h ih
      have hdrop : f.steps.drop i = f.steps.getD i 0 :: f.steps.drop (i + 1) := by
        rw [List.getD_eq_getElem f.steps 0 hi]
        exact List.drop_eq_getElem_cons hi
      have hx' : x ∈ f.steps.drop (visitIdx .decide i) := by
        rw [visitIdx, hdrop]
        rw [visitIdx] at hx
        exact List.mem_cons_of_mem _ hx
      exact ih f' r h (fun hcontr => absurd rfl hcontr) hk hlen x hx'
  | case7 i f script hs =>
      intro f' r h _ _ _ x hx
      rw [runLoop_askSkip_stuck i f script hs] at h
      exact Option.noConfusion h
  | case8 i f rest ih =>
      intro f' r h hph hk hlen x hx
      rw [runLoop_execOk i f rest] at h
      exact ih f' r h (fun _ => hph (by decide)) hk hlen x hx
  | case9 i f ok rest hok ih =>
      intro f' r h hph hk hlen x hx
      obtain rfl : ok = false := by simpa using hok
      have hi : i < f.steps.length := hph (by decide)
      rw [runLoop_execFail i f rest] at h
      have hmem := hk _ (getD_mem_of_lt f.steps i hi)
      have hx' : x ∈ f.steps.drop (visitIdx .retry i) := hx
      have := ih f' r h (fun _ => hi) (bumpStat_wfKeys f _ _ hmem hk) hlen x hx'
      refine Nat.le_trans ?_ this
      by_cases hj : x = f.steps.getD i 0
      · subst hj
        rw [bumpStat_analytics_self_of_mem f _ _ hmem]
      · rw [bumpStat_analytics_ne f _ _ x hj]
  | case10 i f script hs =>
      intro f' r h _ _ _ x hx
      rw [runLoop_retry_stuck i f script hs] at h
      exact Option.noConfusion h
  | case11 i f rest ih =>
      intro f' r h hph hk hlen x hx
      have hi : i < f.steps.length := hph (by decide)
      rw [runLoop_complete i f rest] at h
      have hmem := hk _ (getD_mem_of_lt f.steps i hi)
      have hidx : (i + 1) % SIZE_T_MOD = i + 1 := succIdx_eq i f.steps.length hi hlen
      rw [hidx] at h ih
      have hx' : x ∈ f.steps.drop (visitIdx .decide (i + 1)) := by
        rw [visitIdx]
        exact hx
      have := ih f' r h (fun hcontr => absurd rfl hcontr)
        (bumpStat_wfKeys f _ _ hmem hk) hlen x hx'
      refine Nat.le_trans ?_ this
      by_cases hj : x = f.steps.getD i 0
      · subst hj
        rw [bumpStat_analytics_self_of_mem f _ _ hmem]
      · rw [bumpStat_analytics_ne f _ _ x hj]
  | case12 i f b rest hb ih =>
      intro f' r h hph hk hlen x hx
      obtain rfl : b = false := by simpa using hb
      rw [runLoop_notComplete i f rest] at h
      exact ih f' r h (fun _ => hph (by decide)) hk hlen x hx
  | case13 i f script hs =>
      intro f' r h _ _ _ x hx
      rw [runLoop_askComplete_stuck i f script hs] at h
      exact Option.noConfusion h

/-- C2: for every flow whose analytics map is well-formed (every step has
an entry, established by `addStep`) and in which `completed ≤ started`
holds entrywise, and for every prompter script under which one full `run`
terminates: every step's `startedCount` increases by at least 1,
`completed ≤ started` still holds for every entry, and no per-step counter
(`started`, `completed`, `skipped`, `errors`) is decreased — neither by
`run` nor by `addStep`. -/
theorem run_step_invariants (f : Flow) (script : List Event) (f' : Flow) (r : List Event)
    (hk : wfKeys f) (hlen : f.steps.length < SIZE_T_MOD)
    (hcle : ∀ j, (f.analytics j).completedCount ≤ (f.analytics j).startedCount)
    (h : Flow.run f script = some (f', r)) :
    (∀ x ∈ f.steps, (f.analytics x).startedCount + 1 ≤ (f'.analytics x).startedCount) ∧
      (∀ j, (f'.analytics j).completedCount ≤ (f'.analytics j).startedCount) ∧
      (∀ j, (f.analytics j).le (f'.analytics j)) ∧
      (∀ (g : Flow) (st : Nat), wfMap g →
        ∀ j, (g.analytics j).le ((Flow.addStep g st).analytics j)) := by
  refine ⟨?_, ?_, ?_, ?_⟩
  · intro x hx
    exact runLoop_visits .decide 0 _ script f' r h (fun hc => absurd rfl hc) hk hlen x hx
  · exact runLoop_cle .decide 0 _ script f' r h (fun hc => absurd rfl hc) hk hcle
  · exact (runLoop_framePost .decide 0 _ script f' r h (fun hc => absurd rfl hc) hk).2.2.2.2.2.2.2
  · intro g st hminv j
    by_cases hst : st ∈ g.analyticsKeys
    · simp only [Flow.addStep, mapEnsure, hst, if_pos]
      exact StepAnalytics.le_rfl _
    · by_cases hj : j = st
      · subst hj
        have hz := hminv j hst
        simp only [Flow.addStep, mapEnsure, hst, if_neg, if_pos, hz]
        simp
        exact StepAnalytics.le_rfl _
      · simp only [Flow.addStep, mapEnsure, hst, if_neg, hj]
        simp [hj]
        exact StepAnalytics.le_rfl _

/-- C2 witness: the concrete one-step flow run under "run? yes, execute
succeeds, completed? yes". -/
theorem run_step_invariants_witness :
    ∃ p : Flow × List Event,
      Flow.run wFlow [.ans true, .exec true, .ans true] = some p ∧
        (∀ x ∈ wFlow.steps,
          (wFlow.analytics x).startedCount + 1 ≤ (p.1.analytics x).startedCount) ∧
        (∀ j, (p.1.analytics j).completedCount ≤ (p.1.analytics j).startedCount) ∧
        (∀ j, (wFlow.analytics j).le (p.1.analytics j)) := by
  have hw : ∀ j, wFlow.analytics j = {} := by
    intro j
    by_cases hj : j = 5 <;> simp [wFlow, Flow.addStep, Flow.fresh, mapEnsure, hj]
  have hk : wfKeys wFlow := by
    intro x hx
    simpa using hx
  have big := run_step_invariants wFlow [.ans true, .exec true, .ans true] _ _ hk
    (by decide) (fun j => by rw [hw j]) rfl
  exact ⟨_, rfl, big.1, big.2.1, big.2.2.1⟩

/-- one round of invalid input at step index `i`: run? = no, skip? = no
re-presents the very same index `i` (the unsigned `--i` of line 124 and the
`for`'s `++i` cancel, also at `i = 0` where the subtraction wraps through
`2^64 - 1` and back), with the step's `startedCount` already incremented by
the visit. -/
theorem invalid_round (f : Flow) (i : Nat) (rest : List Event)
    (hi : i < f.steps.length) (hiM : i < SIZE_T_MOD) :
    runLoop .decide i f (.ans false :: .ans false :: rest) =
      runLoop .decide i
        (bumpStat f (f.steps.getD i 0) fun a => { a with startedCount := a.startedCount + 1 })
        rest := by
  rw [runLoop_decide_noRun i f _ hi, runLoop_invalid, wrapIdx_eq i hiM]

/-- C5: when the prompter rejects both run? and skip? at a step index —
including the first step, index 0 — `run` re-presents the same step index
for a fresh decision: the loop index never goes below the first step (the
`size_t` decrement wraps and the `for` increment brings it straight back),
and the step's `startedCount` is incremented again on the fresh visit, so
two consecutive invalid rounds leave the machine at the same decide point
with `startedCount` up by exactly 2. -/
theorem invalid_input_revisits_same_step (f : Flow) (i : Nat) (rest : List Event)
    (hi : i < f.steps.length) (hM : f.steps.length ≤ SIZE_T_MOD) (hk : wfKeys f) :
    ∃ f₂ : Flow,
      runLoop .decide i f (.ans false :: .ans false :: .ans false :: .ans false :: rest) =
        runLoop .decide i f₂ rest ∧
      (f₂.analytics (f.steps.getD i 0)).startedCount =
        (f.analytics (f.steps.getD i 0)).startedCount + 2 := by
  have hiM : i < SIZE_T_MOD := Nat.lt_of_lt_of_le hi hM
  have hmem := hk _ (getD_mem_of_lt f.steps i hi)
  have hi1 : i < (bumpStat f (f.steps.getD i 0)
      fun a => { a with startedCount := a.startedCount + 1 }).steps.length := hi
  refine ⟨bumpStat
      (bumpStat f (f.steps.getD i 0) fun a => { a with startedCount := a.startedCount + 1 })
      (f.steps.getD i 0) (fun a => { a with startedCount := a.startedCount + 1 }), ?_, ?_⟩
  · have eq1 := invalid_round f i (.ans false :: .ans false :: rest) hi hiM
    have eq2 := invalid_round
      (bumpStat f (f.steps.getD i 0) fun a => { a with startedCount := a.startedCount + 1 })
      i rest hi1 hiM
    exact eq1.trans eq2
  · have hmem1 : f.steps.getD i 0 ∈ (bumpStat f (f.steps.getD i 0)
        fun a => { a with startedCount := a.startedCount + 1 }).analyticsKeys := by
      rw [bumpStat_keys_of_mem f _ _ hmem]
      exact hmem
    rw [bumpStat_analytics_self_of_mem _ _ _ hmem1,
      bumpStat_analytics_self_of_mem f _ _ hmem]

/-- C5 witness: the first step (index 0) of the concrete one-step flow,
with two invalid rounds. -/
theorem invalid_input_revisits_same_step_witness :
    ∃ f₂ : Flow,
      runLoop .decide 0 wFlow [.ans false, .ans false, .ans false, .ans false] =
        runLoop .decide 0 f₂ [] ∧
      (f₂.analytics (wFlow.steps.getD 0 0)).startedCount =
        (wFlow.analytics (wFlow.steps.getD 0 0)).startedCount + 2 := by
  have hk : wfKeys wFlow := by
    intro x hx
    simpa using hx
  exact invalid_input_revisits_same_step wFlow 0 [] (by decide) (by decide) hk

theorem bumpStat_mem_spec (f : Flow) (k : Nat) (u : StepAnalytics → StepAnalytics)
    (hmem : k ∈ f.analyticsKeys) :
    (bumpStat f k u).analyticsKeys = f.analyticsKeys ∧
      k ∈ (bumpStat f k u).analyticsKeys ∧
      (bumpStat f k u).analytics k = u (f.analytics k) ∧
      ∀ x, x ≠ k → (bumpStat f k u).analytics x = f.analytics x := by
  refine ⟨bumpStat_keys_of_mem f k u hmem, ?_, bumpStat_analytics_self_of_mem f k u hmem,
    fun x hx => bumpStat_analytics_ne f k u x hx⟩
  rw [bumpStat_keys_of_mem f k u hmem]
  exact hmem

theorem getD_append_length (pre : List Nat) (k : Nat) (post : List Nat) :
    (pre ++ k :: post).getD pre.length 0 = k := by
  induction pre with
  | nil => rfl
  | cons a t ih => simpa using ih

/-- a block of `n` consecutive "run? no, skip? yes" rounds advances the
loop from index `i` to index `i + n`, bumping only the entries of the
steps at indices `i, …, i + n - 1` and leaving the flow-level counters
alone. -/
theorem runLoop_skipSeg :
    ∀ (n i : Nat) (f : Flow) (tail : List Event),
      i + n ≤ f.steps.length → f.steps.length < SIZE_T_MOD → wfKeys f →
      ∃ f₁ : Flow,
        runLoop .decide i f (skipEvents n ++ tail) = runLoop .decide (i + n) f₁ tail ∧
          f₁.steps = f.steps ∧ f₁.analyticsKeys = f.analyticsKeys ∧
          f₁.flowStartedCount = f.flowStartedCount ∧
          f₁.flowCompletedCount = f.flowCompletedCount ∧
          ∀ x, x ∉ (f.steps.drop i).take n → f₁.analytics x = f.analytics x := by
  intro n
  induction n with
  | zero =>
      intro i f tail _ _ _
      exact ⟨f, by simp [skipEvents], rfl, rfl, rfl, rfl, fun x _ => rfl⟩
  | succ n ihn =>
      intro i f tail hin hlen hk
      have hi : i < f.steps.length := by omega
      have hmem := hk _ (getD_mem_of_lt f.steps i hi)
      have hidx : (i + 1) % SIZE_T_MOD = i + 1 := succIdx_eq i f.steps.length hi hlen
      obtain ⟨hkeysA, hmemA, hselfA, hneA⟩ :=
        bumpStat_mem_spec f (f.steps.getD i 0)
          (fun a => { a with startedCount := a.startedCount + 1 }) hmem
      obtain ⟨hkeysB, _, hselfB, hneB⟩ :=
        bumpStat_mem_spec
          (bumpStat f (f.steps.getD i 0) fun a => { a with startedCount := a.startedCount + 1 })
          (f.steps.getD i 0)
          (fun a => { a with skippedCount := a.skippedCount + 1 }) hmemA
      obtain ⟨f₁, heq, hsteps1, hkeys1, hfs1, hfc1, hun1⟩ :=
        ihn (i + 1)
          (bumpStat
            (bumpStat f (f.steps.getD i 0) fun a => { a with startedCount := a.startedCount + 1 })
            (f.steps.getD i 0) fun a => { a with skippedCount := a.skippedCount + 1 })
          tail (show i + 1 + n ≤ f.steps.length by omega)
          (show f.steps.length < SIZE_T_MOD from hlen)
          (by
            intro x hx
            rw [hkeysB, hkeysA]
            exact hk x hx)
      refine ⟨f₁, ?_, ?_, ?_, ?_, ?_, ?_⟩
      · have hexp : skipEvents (n + 1) ++ tail =
            .ans false :: .ans true :: (skipEvents n ++ tail) := rfl
        rw [hexp, runLoop_decide_noRun i f _ hi, runLoop_skip, hidx]
        rw [show i + (n + 1) = i + 1 + n by omega]
        simp only [bumpStat_steps] at heq ⊢
        exact heq
      · exact hsteps1
      · rw [hkeys1, hkeysB, hkeysA]
      · exact hfs1
      · exact hfc1
      · intro x hx
        have hdrop : f.steps.drop i = f.steps.getD i 0 :: f.steps.drop (i + 1) := by
          rw [List.getD_eq_getElem f.steps 0 hi]
          exact List.drop_eq_getElem_cons hi
        rw [hdrop, List.take_succ_cons] at hx
        have hxne : x ≠ f.steps.getD i 0 := fun hcontr => hx (by rw [hcontr]; exact .head _)
        have hxnotin : x ∉ (f.steps.drop (i + 1)).take n := fun hcontr =>
          hx (List.mem_cons_of_mem _ hcontr)
        rw [hun1 x hxnotin, hneB x hxne, hneA x hxne]

/-- the retry-loop fragment "run? yes, execute throws, execute throws,
execute returns, completed? yes" resolves step `i` and advances to `i + 1`,
adding exactly 1 to `startedCount`, 2 to `errorCount` and 1 to
`completedCount` of that step's entry and touching nothing else. -/
theorem runLoop_failTwice (i : Nat) (f : Flow) (tail : List Event)
    (hi : i < f.steps.length) (hlen : f.steps.length < SIZE_T_MOD) (hk : wfKeys f) :
    ∃ g : Flow,
      runLoop .decide i f
          (.ans true :: .exec false :: .exec false :: .exec true :: .ans true :: tail) =
        runLoop .decide (i + 1) g tail ∧
        g.steps = f.steps ∧ g.analyticsKeys = f.analyticsKeys ∧
        g.flowStartedCount = f.flowStartedCount ∧
        g.flowCompletedCount = f.flowCompletedCount ∧
        (∀ x, x ≠ f.steps.getD i 0 → g.analytics x = f.analytics x) ∧
        g.analytics (f.steps.getD i 0) =
          { startedCount := (f.analytics (f.steps.getD i 0)).startedCount + 1,
            completedCount := (f.analytics (f.steps.getD i 0)).completedCount + 1,
            skippedCount := (f.analytics (f.steps.getD i 0)).skippedCount,
            errorCount := (f.analytics (f.steps.getD i 0)).errorCount + 2 } := by
  have hmem := hk _ (getD_mem_of_lt f.steps i hi)
  have hidx : (i + 1) % SIZE_T_MOD = i + 1 := succIdx_eq i f.steps.length hi hlen
  obtain ⟨hkeysA, hmemA, hselfA, hneA⟩ :=
    bumpStat_mem_spec f (f.steps.getD i 0)
      (fun a => { a with startedCount := a.startedCount + 1 }) hmem
  obtain ⟨hkeysB, hmemB, hselfB, hneB⟩ :=
    bumpStat_mem_spec
      (bumpStat f (f.steps.getD i 0) fun a => { a with startedCount := a.startedCount + 1 })
      (f.steps.getD i 0) (fun a => { a with errorCount := a.errorCount + 1 }) hmemA
  obtain ⟨hkeysC, hmemC, hselfC, hneC⟩ :=
    bumpStat_mem_spec
      (bumpStat
        (bumpStat f (f.steps.getD i 0) fun a => { a with startedCount := a.startedCount + 1 })
        (f.steps.getD i 0) fun a => { a with errorCount := a.errorCount + 1 })
      (f.steps.getD i 0) (fun a => { a with errorCount := a.errorCount + 1 }) hmemB
  obtain ⟨hkeysD, _, hselfD, hneD⟩ :=
    bumpStat_mem_spec
      (bumpStat
        (bumpStat
          (bumpStat f (f.steps.getD i 0) fun a => { a with startedCount := a.startedCount + 1 })
          (f.steps.getD i 0) fun a => { a with errorCount := a.errorCount + 1 })
        (f.steps.getD i 0) fun a => { a with errorCount := a.errorCount + 1 })
      (f.steps.getD i 0) (fun a => { a with completedCount := a.completedCount + 1 }) hmemC
  refine ⟨bumpStat
      (bumpStat
        (bumpStat
          (bumpStat f (f.steps.getD i 0) fun a => { a with startedCount := a.startedCount + 1 })
          (f.steps.getD i 0) fun a => { a with errorCount := a.errorCount + 1 })
        (f.steps.getD i 0) fun a => { a with errorCount := a.errorCount + 1 })
      (f.steps.getD i 0) (fun a => { a with completedCount := a.completedCount + 1 }),
    ?_, ?_, ?_, ?_, ?_, ?_, ?_⟩
  · rw [runLoop_decide_run i f _ hi, runLoop_execFail, runLoop_execFail, runLoop_execOk,
      runLoop_complete, hidx]
    simp only [bumpStat_steps]
  · exact rfl
  · rw [hkeysD, hkeysC, hkeysB, hkeysA]
  · exact rfl
  · exact rfl
  · intro x hx
    rw [hneD x hx, hneC x hx, hneB x hx, hneA x hx]
  · rw [hselfD, hselfC, hselfB, hselfA]

/-- C3: in a run where the prompter answers run? = yes for a step whose
`execute()` throws exactly twice before returning normally, followed by
completed? = yes (the surrounding steps being skipped), that step's
counters after the run satisfy `errors = 2`, `completed = 1` and
`started ≥ 1`: each `FlowExecutionException` increments `errorCount` and
re-enters the retry loop (code.cpp lines 113-117).  The step's entry is
assumed fresh (all-zero), as it is after `addStep` before the first run. -/
theorem run_two_failures_then_success (pre post : List Nat) (k : Nat) (f : Flow)
    (hsteps : f.steps = pre ++ k :: post) (hkpre : k ∉ pre) (hkpost : k ∉ post)
    (hk : wfKeys f) (hlen : f.steps.length < SIZE_T_MOD)
    (hfresh : f.analytics k = {}) :
    ∃ f' : Flow,
      Flow.run f (skipEvents pre.length ++
          .ans true :: .exec false :: .exec false :: .exec true :: .ans true ::
            skipEvents post.length) = some (f', []) ∧
        (f'.analytics k).errorCount = 2 ∧ (f'.analytics k).completedCount = 1 ∧
        1 ≤ (f'.analytics k).startedCount := by
  have hlensum : f.steps.length = pre.length + post.length + 1 := by
    rw [hsteps]
    simp [List.length_append]
    omega
  -- the flow right after the initial ++flowStartedCount
  have hk0 : wfKeys { f with flowStartedCount := f.flowStartedCount + 1 } := hk
  obtain ⟨f₁, heq1, hsteps1, hkeys1, hfs1, hfc1, hun1⟩ :=
    runLoop_skipSeg pre.length 0 { f with flowStartedCount := f.flowStartedCount + 1 }
      (.ans true :: .exec false :: .exec false :: .exec true :: .ans true ::
        skipEvents post.length)
      (by
        show 0 + pre.length ≤ f.steps.length
        omega)
      (show f.steps.length < SIZE_T_MOD from hlen) hk0
  rw [Nat.zero_add] at heq1
  have hf1k : f₁.analytics k = f.analytics k := by
    refine hun1 k ?_
    show k ∉ (f.steps.drop 0).take pre.length
    rw [List.drop_zero, hsteps, List.take_left]
    exact hkpre
  have hi1 : pre.length < f₁.steps.length := by
    rw [hsteps1]
    show pre.length < f.steps.length
    omega
  have hlen1 : f₁.steps.length < SIZE_T_MOD := by
    rw [hsteps1]
    exact hlen
  have hk1 : wfKeys f₁ := by
    intro x hx
    rw [hsteps1] at hx
    rw [hkeys1]
    exact hk0 x hx
  have hgetD1 : f₁.steps.getD pre.length 0 = k := by
    rw [hsteps1]
    show f.steps.getD pre.length 0 = k
    rw [hsteps]
    exact getD_append_length pre k post
  obtain ⟨f₂, heq2, hsteps2, hkeys2, hfs2, hfc2, hun2, hself2⟩ :=
    runLoop_failTwice pre.length f₁ (skipEvents post.length) hi1 hlen1 hk1
  rw [hgetD1] at hun2 hself2
  have hf2k : f₂.analytics k =
      { startedCount := 1, completedCount := 1, skippedCount := 0, errorCount := 2 } := by
    rw [hself2, hf1k, hfresh]
  have hsteps2' : f₂.steps = f.steps := by
    rw [hsteps2, hsteps1]
  have hk2 : wfKeys f₂ := by
    intro x hx
    rw [hsteps2'] at hx
    rw [hkeys2, hkeys1]
    exact hk x hx
  obtain ⟨f₃, heq3, hsteps3, hkeys3, hfs3, hfc3, hun3⟩ :=
    runLoop_skipSeg post.length (pre.length + 1) f₂ []
      (by
        rw [hsteps2']
        omega)
      (by
        rw [hsteps2']
        exact hlen)
      hk2
  rw [List.append_nil] at heq3
  have hdroppost : (pre ++ k :: post).drop (pre.length + 1) = post := by
    calc (pre ++ k :: post).drop (pre.length + 1)
        = ((pre ++ k :: post).drop pre.length).drop 1 := by
          rw [List.drop_drop]
      _ = (k :: post).drop 1 := by rw [List.drop_left]
      _ = post := rfl
  have hf3k : f₃.analytics k = f₂.analytics k := by
    refine hun3 k ?_
    rw [hsteps2', hsteps, hdroppost, List.take_length]
    exact hkpost
  have hexit : ¬ pre.length + 1 + post.length < f₃.steps.length := by
    rw [hsteps3, hsteps2']
    show ¬ _ < f.steps.length
    omega
  refine ⟨{ f₃ with flowCompletedCount := f₃.flowCompletedCount + 1 }, ?_, ?_, ?_, ?_⟩
  · calc Flow.run f (skipEvents pre.length ++
          .ans true :: .exec false :: .exec false :: .exec true :: .ans true ::
            skipEvents post.length)
        = runLoop .decide 0 { f with flowStartedCount := f.flowStartedCount + 1 }
            (skipEvents pre.length ++
              .ans true :: .exec false :: .exec false :: .exec true :: .ans true ::
                skipEvents post.length) := rfl
      _ = runLoop .decide pre.length f₁
            (.ans true :: .exec false :: .exec false :: .exec true :: .ans true ::
              skipEvents post.length) := heq1
      _ = runLoop .decide (pre.length + 1) f₂ (skipEvents post.length) := heq2
      _ = runLoop .decide (pre.length + 1 + post.length) f₃ [] := heq3
      _ = some ({ f₃ with flowCompletedCount := f₃.flowCompletedCount + 1 }, []) :=
          runLoop_exit _ _ _ hexit
  · show (f₃.analytics k).errorCount = 2
    rw [hf3k, hf2k]
  · show (f₃.analytics k).completedCount = 1
    rw [hf3k, hf2k]
  · show 1 ≤ (f₃.analytics k).startedCount
    rw [hf3k, hf2k]

/-- C3 witness: a one-step flow (no steps before or after), fresh
analytics, with the fail-twice-then-succeed session. -/
theorem run_two_failures_then_success_witness :
    ∃ f' : Flow,
      Flow.run wFlow (skipEvents 0 ++
          .ans true :: .exec false :: .exec false :: .exec true :: .ans true ::
            skipEvents 0) = some (f', []) ∧
        (f'.analytics 5).errorCount = 2 ∧ (f'.analytics 5).completedCount = 1 ∧
        1 ≤ (f'.analytics 5).startedCount := by
  have hk : wfKeys wFlow := by
    intro x hx
    simpa using hx
  have hfresh : wFlow.analytics 5 = {} := by
    simp [wFlow, Flow.addStep, Flow.fresh, mapEnsure]
  exact run_two_failures_then_success [] [] 5 wFlow rfl (by simp) (by simp) hk
    (by decide) hfresh

theorem avg_of_counts (f : Flow) (h1 : f.flowCompletedCount = 2)
    (h2 : f.totalErrorsAcrossFlows = 0) : avgErrorsPerFlow f = some 0 := by
  rw [avgErrorsPerFlow, h1, h2, if_pos (by norm_num)]
  norm_num

/-- C4 (defect evidence): after two completed runs of the same one-step
flow that accumulate 3 errors and then 1 error, the per-step error counts
sum to 4 and `flowCompletedCount` is 2, yet `totalErrorsAcrossFlows` — the
numerator that `printAnalytics` divides by `flowCompletedCount` — is still
0, because no statement in the program ever updates it; the printed
average is therefore 0, not the (3+1)/2 = 2.0 the claim specifies. -/
theorem avg_errors_metric_defect :
    ∃ p : Flow × List Event,
      c4TwoRuns = some p ∧
        p.1.flowCompletedCount = 2 ∧
        totalStepErrors p.1 = 4 ∧
        p.1.totalErrorsAcrossFlows = 0 ∧
        avgErrorsPerFlow p.1 = some 0 ∧
        (0 : ℚ) ≠ 2 :=
  ⟨_, rfl, by decide, by decide, by decide, avg_of_counts _ (by decide) (by decide), by norm_num⟩

/-- C7 (defect evidence): `CalculusStep::execute` returns normally on all
three policy-violation inputs — non-positive `steps`, fewer than 2 input
values, and division by zero — printing to `cerr` and silently aborting
(`.ok none`) instead of raising `FlowExecutionException`: no path of the
function throws. -/
theorem calculus_silent_failures :
    CalculusStep.execute ⟨0, [1, 2], "+"⟩ = .ok none ∧
      CalculusStep.execute ⟨3, [7], "+"⟩ = .ok none ∧
      CalculusStep.execute ⟨3, [4, 0], "/"⟩ = .ok none :=
  ⟨rfl, rfl, rfl⟩

/-- a successful pass of the fold loop computes the left fold of the
selected operation over the first `fuel` remaining elements. -/
theorem calcFold_eq_foldl (op : String) :
    ∀ (fuel : Nat) (acc : Int) (l : List Int) (r : Int),
      calcFold op fuel acc l = some r →
      r = (l.take fuel).foldl (opApply op) acc := by
  intro fuel
  induction fuel with
  | zero =>
      intro acc l r h
      simp [calcFold] at h
      simp [h]
  | succ n ihn =>
      intro acc l r h
      cases l with
      | nil =>
          simp [calcFold] at h
          simp [h]
      | cons x xs =>
          rw [calcFold] at h
          rw [List.take_succ_cons, List.foldl_cons]
          by_cases h1 : op = "+"
          · rw [if_pos h1] at h
            rw [show opApply op acc x = acc + x by simp [opApply, h1]]
            exact ihn _ _ _ h
          rw [if_neg h1] at h
          by_cases h2 : op = "-"
          · rw [if_pos h2] at h
            rw [show opApply op acc x = acc - x by simp [opApply, h1, h2]]
            exact ihn _ _ _ h
          rw [if_neg h2] at h
          by_cases h3 : op = "*"
          · rw [if_pos h3] at h
            rw [show opApply op acc x = acc * x by simp [opApply, h1, h2, h3]]
            exact ihn _ _ _ h
          rw [if_neg h3] at h
          by_cases h4 : op = "/"
          · rw [if_pos h4] at h
            by_cases h5 : x ≠ 0
            · rw [if_pos h5] at h
              rw [show opApply op acc x = Int.tdiv acc x by simp [opApply, h1, h2, h3, h4]]
              exact ihn _ _ _ h
            · rw [if_neg h5] at h
              exact absurd h (by simp)
          rw [if_neg h4] at h
          by_cases h6 : op = "min"
          · rw [if_pos h6] at h
            rw [show opApply op acc x = min acc x by simp [opApply, h1, h2, h3, h4, h6]]
            exact ihn _ _ _ h
          rw [if_neg h6] at h
          by_cases h7 : op = "max"
          · rw [if_pos h7] at h
            rw [show opApply op acc x = max acc x by
              simp [opApply, h1, h2, h3, h4, h6, h7]]
            exact ihn _ _ _ h
          rw [if_neg h7] at h
          exact absurd h (by simp)

/-- C6: for a `steps` parameter ≥ 1 and at least 2 input values, a
successful execution of `CalculusStep` computes the left fold of the
configured operation, starting from the first input value, across exactly
`min(steps - 1, count - 1)` subsequent elements in sequence order. -/
theorem calculus_fold (c : CalculusStep) (r : Int)
    (hs : 1 ≤ c.steps) (hc : 2 ≤ c.inputValues.length)
    (h : CalculusStep.execute c = .ok (some r)) :
    r = (c.inputValues.tail.take
          (min (c.steps - 1).toNat (c.inputValues.length - 1))).foldl
        (opApply c.operation) c.inputValues.headI := by
  rw [CalculusStep.execute] at h
  rw [if_neg (by omega)] at h
  cases hv : c.inputValues with
  | nil =>
      rw [hv] at hc
      simp at hc
  | cons v vs =>
      rw [hv] at h
      simp only [Except.ok.injEq] at h
      have hr := calcFold_eq_foldl c.operation (c.steps - 1).toNat v vs r h
      simp only [List.tail_cons, List.headI_cons, List.length_cons,
        Nat.add_sub_cancel]
      rw [hr]
      congr 1
      rw [List.take_eq_take]
      simp [Nat.min_assoc]

/-- C6 witness: the `CalculusStep<int>(3, {2, 3, 4}, "+")` built in `main`
folds to 2 + 3 + 4 = 9. -/
theorem calculus_fold_witness :
    (1 : Int) ≤ c6Step.steps ∧ 2 ≤ c6Step.inputValues.length ∧
      CalculusStep.execute c6Step = .ok (some 9) ∧
      (9 : Int) = (c6Step.inputValues.tail.take
          (min (c6Step.steps - 1).toNat (c6Step.inputValues.length - 1))).foldl
        (opApply c6Step.operation) c6Step.inputValues.headI :=
  ⟨by decide, by decide, rfl, calculus_fold c6Step 9 (by decide) (by decide) rfl⟩

theorem NPOS_eq : NPOS = 18446744073709551615 := by norm_num [NPOS]

theorem find_last_of_not_mem (s : List Char) (c : Char) (h : c ∉ s) :
    find_last_of s c = NPOS := by
  induction s with
  | nil => rfl
  | cons a t ih =>
      have hat : c ∉ t := fun hc => h (List.mem_cons_of_mem _ hc)
      have hac : ¬ a = c := fun hc => h (by rw [hc]; exact List.mem_cons_self c t)
      rw [find_last_of, ih hat]
      simp [hac]

theorem find_last_of_mem (s : List Char) (c : Char) (hlen : s.length < NPOS) (h : c ∈ s) :
    find_last_of s c < s.length ∧
      s.drop (find_last_of s c) = c :: s.drop (find_last_of s c + 1) ∧
      c ∉ s.drop (find_last_of s c + 1) := by
  induction s with
  | nil => exact absurd h (List.not_mem_nil c)
  | cons a t ih =>
      by_cases hct : c ∈ t
      · have hlt : t.length < NPOS :=
          Nat.lt_of_le_of_lt (Nat.le_succ t.length) hlen
        obtain ⟨h1, h2, h3⟩ := ih hlt hct
        have hne : find_last_of t c ≠ NPOS := by
          intro hcontr
          rw [hcontr] at h1
          omega
        rw [find_last_of, if_pos hne]
        refine ⟨?_, ?_, ?_⟩
        · simpa using h1
        · rw [List.drop_succ_cons, List.drop_succ_cons]
          exact h2
        · rw [List.drop_succ_cons]
          exact h3
      · have hac : a = c := by
          rcases List.mem_cons.mp h with h1 | h1
          · exact h1.symm
          · exact absurd h1 hct
        have hnone := find_last_of_not_mem t c hct
        rw [find_last_of, hnone, if_neg (by simp), if_pos hac]
        refine ⟨Nat.succ_pos _, ?_, ?_⟩
        · rw [List.drop_zero, hac]
          rfl
        · simpa using hct

/-- characterisation of the extension test: with the `size_t` wrap of
`npos + 1`, the suffix after the last dot (or, dot-free, the whole string)
equals `ext` exactly when the string ends in `'.' :: ext` or is the
dot-free string `ext` itself. -/
theorem extTest_iff (s ext : List Char) (hdot : '.' ∉ ext) (hlen : s.length < NPOS) :
    (extTest s ext = true ↔ (('.' :: ext) <:+ s ∨ ('.' ∉ s ∧ s = ext))) := by
  rw [extTest, substrFrom, beq_iff_eq]
  by_cases hmem : '.' ∈ s
  · obtain ⟨h1, h2, h3⟩ := find_last_of_mem s '.' hlen hmem
    have hmod : (find_last_of s '.' + 1) % SIZE_T_MOD = find_last_of s '.' + 1 := by
      apply Nat.mod_eq_of_lt
      rw [sizeTMod_eq]
      rw [NPOS_eq] at hlen
      omega
    rw [hmod]
    constructor
    · intro he
      left
      rw [← he, ← h2]
      exact List.drop_suffix _ _
    · intro hca
      rcases hca with hsuff | ⟨hnd, _⟩
      rotate_left
      · exact absurd hmem hnd
      · obtain ⟨u, hu⟩ := hsuff
        have hsub : ∀ m n : Nat, m ≤ n → s.drop n = (s.drop m).drop (n - m) := by
          intro m n hmn
          rw [List.drop_drop]
          congr 1
          omega
        have e2 : s.drop u.length = '.' :: ext := by
          rw [← hu, List.drop_left]
        have hul : u.length ≤ s.length := by
          rw [← hu]
          simp
        rcases Nat.lt_trichotomy (find_last_of s '.') u.length with hpq | hpq | hpq
        · exfalso
          have := hsub (find_last_of s '.') u.length (Nat.le_of_lt hpq)
          rw [h2] at this
          rw [show u.length - find_last_of s '.'
              = (u.length - find_last_of s '.' - 1) + 1 by omega] at this
          rw [List.drop_succ_cons] at this
          have hin : '.' ∈ s.drop (find_last_of s '.' + 1) := by
            have : ('.' : Char) ∈ (s.drop (find_last_of s '.' + 1)).drop
                (u.length - find_last_of s '.' - 1) := by
              rw [← this, e2]
              exact List.mem_cons_self _ _
            exact List.mem_of_mem_drop this
          exact h3 hin
        · rw [← hpq] at e2
          rw [h2] at e2
          exact (List.cons.injEq _ _ _ _ ▸ e2).2.symm ▸ rfl
        · exfalso
          have := hsub u.length (find_last_of s '.') (Nat.le_of_lt hpq)
          rw [e2] at this
          rw [show find_last_of s '.' - u.length
              = (find_last_of s '.' - u.length - 1) + 1 by omega] at this
          rw [List.drop_succ_cons] at this
          have hin : '.' ∈ ext := by
            have : ('.' : Char) ∈ ext.drop (find_last_of s '.' - u.length - 1) := by
              rw [← this, h2]
              exact List.mem_cons_self _ _
            exact List.mem_of_mem_drop this
          exact hdot hin
  · have hnone := find_last_of_not_mem s '.' hmem
    have hmod : (find_last_of s '.' + 1) % SIZE_T_MOD = 0 := by
      rw [hnone, NPOS_eq, sizeTMod_eq]
    rw [hmod, List.drop_zero]
    constructor
    · intro he
      exact Or.inr ⟨hmem, he⟩
    · intro hca
      rcases hca with hsuff | ⟨_, he⟩
      · exact absurd (hsuff.subset (List.mem_cons_self _ _)) hmem
      · exact he

/-- C8 counterexample: the claim's "if and only if the extension is
literally `.txt`" fails on the dot-free input `"txt"`: `find_last_of(".")`
returns npos, `npos + 1` wraps to 0, the whole string is compared with
`"txt"` and matches, so TextInputStep dispatches to the file-reading
branch although the input does not end in `".txt"`.  Symmetrically, on the
path `"csv"` CSVInputStep passes the extension check and reads the file
(here successfully) although the path's extension is not `.csv`. -/
theorem ext_dispatch_counterexample :
    extTest "txt".toList "txt".toList = true ∧
      ¬ (".txt".toList <:+ "txt".toList) ∧
      CSVInputStep.execute (fun _ => some [[]]) "csv".toList = .ok [[]] ∧
      ¬ (".csv".toList <:+ "csv".toList) := by
  refine ⟨by decide, ?_, rfl, ?_⟩
  · intro hsuff
    have := hsuff.length_le
    simp at this
  · intro hsuff
    have := hsuff.length_le
    simp at this

/-- C8 amended: TextInputStep treats the input as a text-file path iff the
input ends in `".txt"` or contains no dot and is exactly the string
`"txt"` (a dot-free input is compared whole, because `npos + 1` wraps to
0); likewise CSVInputStep fails with the invalid-file-type error iff the
path neither ends in `".csv"` nor is the dot-free string `"csv"`. -/
theorem ext_dispatch_amended (s : List Char) (fs : List Char → Option (List (List Char)))
    (hlen : s.length < NPOS) :
    (extTest s "txt".toList = true ↔
      (".txt".toList <:+ s ∨ ('.' ∉ s ∧ s = "txt".toList))) ∧
    (CSVInputStep.execute fs s = .error .invalidFileType ↔
      ¬ (".csv".toList <:+ s ∨ ('.' ∉ s ∧ s = "csv".toList))) := by
  have htxt := extTest_iff s "txt".toList (by decide) hlen
  have hcsv := extTest_iff s "csv".toList (by decide) hlen
  constructor
  · exact htxt
  · constructor
    · intro herr hrhs
      have hT : extTest s ['c', 's', 'v'] = true := hcsv.mpr hrhs
      rw [CSVInputStep.execute, if_pos hT] at herr
      cases hfs : fs s <;> rw [hfs] at herr <;> simp at herr
    · intro hnot
      have hF : extTest s ['c', 's', 'v'] = false := by
        cases hB : extTest s ['c', 's', 'v']
        · rfl
        · exact absurd (hcsv.mp hB) hnot
      rw [CSVInputStep.execute, if_neg (by simp [hF])]

/-- C8 amended witness: the input `"a.txt"` with an empty file system. -/
theorem ext_dispatch_amended_witness :
    "a.txt".toList.length < NPOS ∧
      ((extTest "a.txt".toList "txt".toList = true ↔
        (".txt".toList <:+ "a.txt".toList ∨
          ('.' ∉ "a.txt".toList ∧ "a.txt".toList = "txt".toList))) ∧
      (CSVInputStep.execute (fun _ => none) "a.txt".toList = .error .invalidFileType ↔
        ¬ (".csv".toList <:+ "a.txt".toList ∨
          ('.' ∉ "a.txt".toList ∧ "a.txt".toList = "csv".toList)))) :=
  ⟨by decide, ext_dispatch_amended "a.txt".toList (fun _ => none) (by decide)⟩

/-- C9: on a registry whose flow names are pairwise distinct (names are
the registry's unique lookup keys), `deleteFlow` removes exactly the flow
carrying the requested name when one is present (the result is the
collection with every flow of that name — there is exactly one — filtered
out, and no exception); when no flow has the name it throws
`FlowNotFound(name)` and the collection, hence `list()`, is unchanged. -/
theorem deleteFlow_spec :
    ∀ (flows : List Flow) (flowName : String),
      (flows.map Flow.name).Nodup →
      ((∃ fl ∈ flows, fl.name = flowName) →
          (deleteFlow flows flowName).1 =
            flows.filter (fun fl => !(fl.name == flowName)) ∧
          (deleteFlow flows flowName).2 = none) ∧
      ((∀ fl ∈ flows, fl.name ≠ flowName) →
          deleteFlow flows flowName = (flows, some flowName) ∧
          listFlows (deleteFlow flows flowName).1 = listFlows flows) := by
  intro flows
  induction flows with
  | nil =>
      intro flowName _
      refine ⟨?_, ?_⟩
      · rintro ⟨fl, hfl, _⟩
        exact absurd hfl (List.not_mem_nil fl)
      · intro _
        exact ⟨rfl, rfl⟩
  | cons a t ih =>
      intro flowName hnodup
      rw [List.map_cons, List.nodup_cons] at hnodup
      obtain ⟨hhead, htail⟩ := hnodup
      by_cases ha : a.name = flowName
      · have hfi : (a :: t).findIdx? (fun fl => fl.name == flowName) = some 0 := by
          rw [List.findIdx?_cons]
          simp [ha]
        constructor
        · intro _
          have hfilter : t.filter (fun fl => !(fl.name == flowName)) = t := by
            apply List.filter_eq_self.mpr
            intro fl hfl
            have : fl.name ≠ flowName := by
              intro hcontr
              apply hhead
              rw [ha, ← hcontr]
              exact List.mem_map_of_mem Flow.name hfl
            simp [this]
          constructor
          · rw [show deleteFlow (a :: t) flowName = ((a :: t).eraseIdx 0, none) from by
              rw [deleteFlow, hfi]]
            show (a :: t).eraseIdx 0 = _
            simp [List.filter_cons, ha, hfilter]
          · rw [show deleteFlow (a :: t) flowName = ((a :: t).eraseIdx 0, none) from by
              rw [deleteFlow, hfi]]
        · intro hall
          exact absurd ha (hall a (List.mem_cons_self a t))
      · have hfi : (a :: t).findIdx? (fun fl => fl.name == flowName) =
            (t.findIdx? (fun fl => fl.name == flowName)).map (· + 1) := by
          rw [List.findIdx?_cons]
          simp [ha]
        constructor
        · rintro ⟨fl, hfl, hname⟩
          have hfl' : fl ∈ t := by
            rcases List.mem_cons.mp hfl with h1 | h1
            · exact absurd (h1 ▸ hname) ha
            · exact h1
          have hext : ∃ fl ∈ t, fl.name = flowName := ⟨fl, hfl', hname⟩
          obtain ⟨ih1, ih2⟩ := (ih flowName htail).1 hext
          obtain ⟨j, hj⟩ : ∃ j, t.findIdx? (fun fl => fl.name == flowName) = some j := by
            rw [deleteFlow] at ih2
            cases hfj : t.findIdx? (fun fl => fl.name == flowName) with
            | none =>
                rw [hfj] at ih2
                exact absurd ih2 (by simp)
            | some j => exact ⟨j, rfl⟩
          have hdel : deleteFlow (a :: t) flowName = ((a :: t).eraseIdx (j + 1), none) := by
            rw [deleteFlow, hfi, hj]
            rfl
          have hdelT : (deleteFlow t flowName).1 = t.eraseIdx j := by
            rw [deleteFlow, hj]
          constructor
          · rw [hdel]
            show (a :: t).eraseIdx (j + 1) = _
            rw [List.eraseIdx_cons_succ]
            rw [show (a :: t).filter (fun fl => !(fl.name == flowName)) =
                a :: t.filter (fun fl => !(fl.name == flowName)) by
              simp [List.filter_cons, ha]]
            rw [← hdelT, ih1]
          · rw [hdel]
        · intro hall
          have hallt : ∀ fl ∈ t, fl.name ≠ flowName := fun fl hfl =>
            hall fl (List.mem_cons_of_mem a hfl)
          obtain ⟨iheq, _⟩ := (ih flowName htail).2 hallt
          have hfj : t.findIdx? (fun fl => fl.name == flowName) = none := by
            cases hfj : t.findIdx? (fun fl => fl.name == flowName) with
            | none => rfl
            | some j =>
                rw [deleteFlow, hfj] at iheq
                exact absurd (congrArg Prod.snd iheq) (by simp)
          constructor
          · rw [deleteFlow, hfi, hfj]
            rfl
          · rw [deleteFlow, hfi, hfj]
            rfl

/-- C9 witness: deleting "a" from the two-flow registry with names
["a", "b"]. -/
theorem deleteFlow_spec_witness :
    (regFlows.map Flow.name).Nodup ∧
      (((∃ fl ∈ regFlows, fl.name = "a") →
          (deleteFlow regFlows "a").1 =
            regFlows.filter (fun fl => !(fl.name == "a")) ∧
          (deleteFlow regFlows "a").2 = none) ∧
      ((∀ fl ∈ regFlows, fl.name ≠ "a") →
          deleteFlow regFlows "a" = (regFlows, some "a") ∧
          listFlows (deleteFlow regFlows "a").1 = listFlows regFlows)) := by
  have hnd : (regFlows.map Flow.name).Nodup := by
    simp [regFlows, Flow.fresh]
  exact ⟨hnd, deleteFlow_spec regFlows "a" hnd⟩

/-- C10: for every prompter script under which `run` terminates, `run`
modifies only the analytics state: the flow's name, creation timestamp,
step sequence (length, order and identities) and the set of per-step
analytics entries (the key set of the `analytics` map) are unchanged.  The
well-formedness hypothesis — every step has an analytics entry — holds for
every flow built through `Flow::addStep`, which inserts the entry. -/
theorem run_frame (f : Flow) (script : List Event) (f' : Flow) (r : List Event)
    (hk : wfKeys f) (h : Flow.run f script = some (f', r)) :
    f'.name = f.name ∧ f'.timestamp = f.timestamp ∧ f'.steps = f.steps ∧
      f'.analyticsKeys = f.analyticsKeys := by
  have hp := runLoop_framePost .decide 0 _ script f' r h (fun hc => absurd rfl hc) hk
  exact ⟨hp.1, hp.2.1, hp.2.2.1, hp.2.2.2.1⟩

/-- C10 witness: on the concrete one-step flow and skip script, the name,
timestamp, step sequence and analytics key set survive the run. -/
theorem run_frame_witness :
    wfKeys wFlow ∧
      ∃ p : Flow × List Event,
        Flow.run wFlow [.ans false, .ans true] = some p ∧
          p.1.name = wFlow.name ∧ p.1.timestamp = wFlow.timestamp ∧
          p.1.steps = wFlow.steps ∧ p.1.analyticsKeys = wFlow.analyticsKeys :=
  have hk : wfKeys wFlow := by
    intro x hx
    simpa using hx
  ⟨hk, _, rfl, run_frame wFlow [.ans false, .ans true] _ _ hk rfl⟩

end OOPProject
